import Mathlib

/-!
Shallow embedding of the k6 cloud log-tailing subsystem
(`cloudapi/logs.go`): the bounded-retry backoff helper `retry`, the
watermark tracker `timestampTrack`, the batch renderer `msg.Log`, the
per-batch watermark update of the consumer goroutine, and the
read/reconnect loop of `StreamLogsToLogger`.

Conventions of the embedding:
* Go `time.Duration` values are `Int` nanoseconds.
* Go `int64` parsing (`strconv.ParseInt`/`strconv.Atoi`, base 10,
  64-bit) is modelled exactly, including the saturating value returned
  together with a range error.
* The injected sleeper is modelled by returning the list of slept
  durations; the `math/rand` jitter source is an oracle `jit : Nat → Int`
  giving the value drawn at loop iteration `i`.
* `math.Pow` is applied by the code only to a whole-second nonnegative
  base and an integer exponent; it is modelled by exact `Nat` powers,
  which agrees with the float computation while the result stays below
  `2^53` (and the resulting duration below `2^63` ns).
-/

namespace K6Logs

/-! ### Go integer parsing (`strconv`) -/

/-- Numeric value of a list of decimal digit characters. -/
def digitsVal (cs : List Char) : Nat :=
  cs.foldl (fun a c => a * 10 + (c.toNat - 48)) 0

/-- Syntactic parse of a base-10 integer literal, unbounded: optional
sign followed by at least one digit and nothing else (Go `strconv`
syntax for base 10; underscores are rejected for an explicit base).
`none` is a Go syntax error. -/
def goParseIntCore (s : String) : Option Int :=
  match s.toList with
  | [] => none
  | '+' :: rest =>
      if rest ≠ [] ∧ rest.all Char.isDigit then some (digitsVal rest) else none
  | '-' :: rest =>
      if rest ≠ [] ∧ rest.all Char.isDigit then some (-(digitsVal rest : Int)) else none
  | l => if l.all Char.isDigit then some (digitsVal l) else none

def int64Min : Int := -(2 ^ 63)

def int64Max : Int := 2 ^ 63 - 1

/-- `strconv.ParseInt(s, 10, 64)` with any error collapsed to `none`
(the callers in `logs.go` that use this form discard the value on
error). -/
def goParseInt64 (s : String) : Option Int :=
  match goParseIntCore s with
  | none => none
  | some v => if v < int64Min ∨ int64Max < v then none else some v

/-- `strconv.Atoi(s)` with the error ignored, as in `nsec, _ :=
strconv.Atoi(...)`: a syntax error yields the zero value, a range error
yields the saturated `int64` bound that Go returns alongside the
error. -/
def goAtoi (s : String) : Int :=
  match goParseIntCore s with
  | none => 0
  | some v => if int64Max < v then int64Max else if v < int64Min then int64Min else v

/-- `strconv.Atoi(s)` together with Go's `err == nil` flag. -/
def goAtoiOk (s : String) : Int × Bool :=
  match goParseIntCore s with
  | none => (0, false)
  | some v =>
      if int64Max < v then (int64Max, false)
      else if v < int64Min then (int64Min, false)
      else (v, true)

/-! ### Watermark tracker (`timestampTrack`) -/

/-- `timestampTrack.Set`: state transition on the stored `ts` value. -/
def tstSet (s ts : Int) : Int :=
  if ts < 1 then s else ts

/-- `timestampTrack.TimeOrNow`, with the wall clock passed in as `now`
(nanoseconds): the stored value plus one millisecond when positive,
otherwise `now`. -/
def tstTimeOrNow (s now : Int) : Int :=
  if 0 < s then s + 1000000 else now

/-! ### Bounded-retry backoff (`retry`) -/

/-- Result of a `retry` run: the durations handed to the sleeper in
order, the number of invocations of the action, and the returned
error (`none` = Go `nil`). -/
structure RetryResult (Err : Type) where
  sleeps : List Int
  calls : Nat
  result : Option Err
  deriving Repr, DecidableEq

/-- The wait computed at loop iteration `i ≥ 1`:
`time.Duration(math.Pow(baseInterval, i)) * time.Second` plus the drawn
jitter in milliseconds, capped at `max`. -/
def waitInterval (bs : Nat) (i : Nat) (j : Int) (mx : Int) : Int :=
  let wait : Int := (bs ^ i : Nat) * 1000000000 + j * 1000000
  if mx < wait then mx else wait

/-- The `for i := 0; i < int(attempts); i++` loop of `retry`, with
`i` the current loop index, `r` the remaining iterations and `last`
the current value of the `err` variable. `doAct i` is the outcome of
the action's `(i+1)`-th invocation. -/
def retryLoop {Err : Type} (doAct : Nat → Option Err) (jit : Nat → Int)
    (bs : Nat) (mx : Int) : Nat → Nat → Option Err → RetryResult Err
  | _, 0, last => ⟨[], 0, last⟩
  | i, r + 1, _ =>
      let sl : List Int := if i = 0 then [] else [waitInterval bs i (jit i) mx]
      match doAct i with
      | none => ⟨sl, 1, none⟩
      | some e =>
          let rest := retryLoop doAct jit bs mx (i + 1) r (some e)
          ⟨sl ++ rest.sleeps, 1 + rest.calls, rest.result⟩

/-- `retry(s, attempts, interval, max, do)` from `logs.go`:
`baseInterval := math.Abs(interval.Truncate(time.Second).Seconds())`
is the absolute value of `interval` truncated to whole seconds. -/
def retry {Err : Type} (attempts : Nat) (interval mx : Int)
    (doAct : Nat → Option Err) (jit : Nat → Int) : RetryResult Err :=
  retryLoop doAct jit (interval.natAbs / 1000000000) mx 0 attempts none

/-- 0-based index of the first successful invocation among iterations
`i, i+1, ..., i+r-1`, if any. -/
def firstSuccFrom {Err : Type} (doAct : Nat → Option Err) : Nat → Nat → Option Nat
  | _, 0 => none
  | i, r + 1 => if (doAct i).isNone then some i else firstSuccFrom doAct (i + 1) r

/-- 0-based index of the first successful invocation within `n`
attempts. -/
def firstSuccess {Err : Type} (doAct : Nat → Option Err) (n : Nat) : Option Nat :=
  firstSuccFrom doAct 0 n

/-! ### Wire data model (`msg`, `msgStreams`, `msgDroppedEntries`)

Go `map[string]string` label sets are modelled as association lists
(Go map keys are unique; all the code does is copy, look up and delete
one key). -/

structure MsgStream where
  stream : List (String × String)
  values : List (String × String)
  deriving Repr, DecidableEq

structure MsgDropped where
  labels : List (String × String)
  timestamp : String
  deriving Repr, DecidableEq

structure Msg where
  streams : List MsgStream
  droppedEntries : List MsgDropped
  deriving Repr, DecidableEq

/-- `msgStreams.LatestTimestamp`: the parsed timestamp of the first
(newest) value, `0` on an empty values list or a parse error. -/
def latestTimestamp (s : MsgStream) : Int :=
  match s.values with
  | [] => 0
  | v :: _ =>
      match goParseInt64 v.1 with
      | none => 0
      | some unix => unix

/-! ### Renderer (`msg.Log`) -/

/-- Severity levels of the logrus sink. -/
inductive LogLevel where
  | panic | fatal | error | warn | info | debug | trace
  deriving Repr, DecidableEq

/-- ASCII lowercase of one character. `logrus.ParseLevel` applies Go's
`strings.ToLower`; on the recognized level names this agrees with
ASCII lowering (the only non-ASCII code points whose Unicode lowercase
is an ASCII letter map to `k` and `s`, letters that occur in no level
name, so the two lowerings accept exactly the same strings here). -/
def asciiLower (c : Char) : Char :=
  if 65 ≤ c.toNat ∧ c.toNat ≤ 90 then Char.ofNat (c.toNat + 32) else c

/-- `logrus.ParseLevel`: case-insensitive match of the recognized
severity names (`"warn"` and `"warning"` both map to the warn
level). -/
def parseLevel (s : String) : Option LogLevel :=
  let l := s.toList.map asciiLower
  if l = "panic".toList then some .panic
  else if l = "fatal".toList then some .fatal
  else if l = "error".toList then some .error
  else if l = "warn".toList then some .warn
  else if l = "warning".toList then some .warn
  else if l = "info".toList then some .info
  else if l = "debug".toList then some .debug
  else if l = "trace".toList then some .trace
  else none

/-- One record written to the sink: severity, field map, record time in
Unix nanoseconds (`time.Unix(0, nsec)`), and message text. -/
structure LogRecord where
  level : LogLevel
  fields : List (String × String)
  timeNs : Int
  message : String
  deriving Repr, DecidableEq

/-- The records the body of the inner `for _, value := range
stream.Values` loop emits for one `(timestamp, text)` pair, given the
field map and the `level` string in scope: one record at the parsed
severity, or an info record followed by a warning about the unknown
level string. -/
def valueRecords (fields : List (String × String)) (level : String)
    (v : String × String) : List LogRecord :=
  let t : Int := goAtoi v.1
  match parseLevel level with
  | some lvl => [⟨lvl, fields, t, v.2⟩]
  | none =>
      [⟨.info, fields, t, v.2⟩,
       ⟨.warn, fields, t, "last message had unknown level " ++ level⟩]

/-- The records one iteration of the outer `for _, stream := range
m.Streams` loop emits: the field map copies the label set and drops
`"level"` exactly when that key is present; the `level` variable is
(re)assigned from the two-valued map read, so it holds `""` when the
label is absent. -/
def streamRecords (s : MsgStream) : List LogRecord :=
  let fields :=
    if (List.lookup "level" s.stream).isSome
    then s.stream.filter (fun kv => kv.1 ≠ "level")
    else s.stream
  let level := (List.lookup "level" s.stream).getD ""
  s.values.foldr (fun v acc => valueRecords fields level v ++ acc) []

/-- The outer streams loop of `msg.Log`, with the `level` variable
threaded through the iterations exactly as the Go `var level string`
declared outside the loop is: each iteration overwrites it with the
two-valued map read before any use. -/
def logStreamsGo (level : String) : List MsgStream → List LogRecord
  | [] => []
  | s :: rest =>
      let fields :=
        if (List.lookup "level" s.stream).isSome
        then s.stream.filter (fun kv => kv.1 ≠ "level")
        else s.stream
      let level1 := (List.lookup "level" s.stream).getD ""
      (s.values.foldr (fun v acc => valueRecords fields level1 v ++ acc) [])
        ++ logStreamsGo level1 rest

/-- The record emitted for one `msgDroppedEntries` element: a warning
with the entry's own label set (no key removed) and its timestamp. -/
def droppedRecord (d : MsgDropped) : LogRecord :=
  ⟨.warn, d.labels, goAtoi d.timestamp, "dropped"⟩

/-- `msg.Log`: all stream records (with `level` starting as the zero
value `""`), then one warning per dropped entry. -/
def msgLog (m : Msg) : List LogRecord :=
  logStreamsGo "" m.streams ++ m.droppedEntries.map droppedRecord

/-! ### Consumer watermark update (`StreamLogsToLogger`, lines 182-189) -/

/-- The `ts` computed by the consumer goroutine for one decoded batch:
fold of `if sts > ts { ts = sts }` over the streams, starting from
`var ts int64` (= 0). Dropped entries are not consulted. -/
def batchTimestamp (m : Msg) : Int :=
  m.streams.foldl
    (fun ts s => if ts < latestTimestamp s then latestTimestamp s else ts) 0

/-- One consumer step on the watermark state: `latest.Set(ts)` with the
batch's computed timestamp. -/
def consumeBatch (w : Int) (m : Msg) : Int :=
  tstSet w (batchTimestamp m)

/-! ### Read/reconnect loop of `StreamLogsToLogger` (lines 193-229)

The loop is driven by three oracles per iteration: the outcome of
`conn.ReadMessage()`, whether `ctx.Done()` is ready at the
post-read `select`, the outcome of the reconnect dial
(`c.logtailConn`, itself a bounded `retry`), and whether `ctx.Done()`
wins the forwarding `select`. -/

structure LoopInput (E M C : Type) where
  readRes : Except E M
  doneAfterRead : Bool
  dialRes : Except E C
  doneAtForward : Bool

/-- Result of running the read loop over a finite oracle trace: the
messages forwarded into `msgBuffer`, the function's return value when
it returned (`some none` = `nil` on cancellation, `some (some e)` =
error `e`), or `none` when the trace ran out with the loop still
going, and the connection handle current at that point. -/
def streamRun {E M C : Type} (conn : C) :
    List (LoopInput E M C) → List M × Option (Option E) × C
  | [] => ([], none, conn)
  | inp :: rest =>
      if inp.doneAfterRead then ([], some none, conn)
      else
        match inp.readRes with
        | .error e =>
            match inp.dialRes with
            | .ok c2 => streamRun c2 rest
            | .error _ => ([], some (some e), conn)
        | .ok msg =>
            if inp.doneAtForward then ([], some none, conn)
            else
              let out := streamRun conn rest
              (msg :: out.1, out.2.1, out.2.2)

/-! ### Helper lemmas -/

lemma tstSet_of_lt_one {s ts : Int} (h : ts < 1) : tstSet s ts = s := by
  simp [tstSet, h]

lemma foldl_tstSet_const (l : List Int) (s : Int) (h : ∀ x ∈ l, x < 1) :
    List.foldl tstSet s l = s := by
  induction l with
  | nil => rfl
  | cons x xs ih =>
      simp only [List.foldl_cons]
      rw [tstSet_of_lt_one (h x (List.mem_cons_self x xs))]
      exact ih fun y hy => h y (List.mem_cons_of_mem x hy)

end K6Logs

namespace K6Logs

/-- **C10.** `retry` with `attempts = 0` never sleeps, never invokes the
action, and returns `nil` (reported success) even though the action was
never attempted. -/
theorem retry_zero_attempts {Err : Type} (interval mx : Int)
    (doAct : Nat → Option Err) (jit : Nat → Int) :
    retry 0 interval mx doAct jit = ⟨[], 0, none⟩ :=
  rfl

/-- **C3.** `timestampTrack`: `Set ts` with `ts < 1` leaves the stored
value unchanged; `Set ts` with `ts ≥ 1` unconditionally overwrites the
stored value (last-write-wins, so a later smaller positive value
regresses it); `TimeOrNow` returns the wall clock when no positive
value was ever stored, and otherwise the stored timestamp plus exactly
one millisecond (10^6 ns). -/
theorem watermark_ops (s ts now : Int) (l : List Int) :
    (ts < 1 → tstSet s ts = s) ∧
    (1 ≤ ts → tstSet s ts = ts) ∧
    ((∀ x ∈ l, x < 1) → tstTimeOrNow (List.foldl tstSet 0 l) now = now) ∧
    (0 < s → tstTimeOrNow s now = s + 1000000) := by
  refine ⟨fun h => tstSet_of_lt_one h, fun h => ?_, fun h => ?_, fun h => ?_⟩
  · simp [tstSet, show ¬ ts < 1 by omega]
  · rw [foldl_tstSet_const l 0 h]
    simp [tstTimeOrNow]
  · simp [tstTimeOrNow, h]

theorem watermark_ops_witness :
    tstSet 5 0 = 5 ∧ tstSet 5 1000 = 1000 ∧
    tstTimeOrNow (List.foldl tstSet 0 [0, -5]) 77 = 77 ∧
    tstTimeOrNow 1000 77 = 1001000 :=
  ⟨(watermark_ops 5 0 77 []).1 (by norm_num),
   (watermark_ops 5 1000 77 []).2.1 (by norm_num),
   (watermark_ops 0 0 77 [0, -5]).2.2.1 (by decide),
   (watermark_ops 1000 0 77 []).2.2.2 (by norm_num)⟩

/-- **C2.** In the read loop of `StreamLogsToLogger`, when a read fails
with error `e` and cancellation is not signalled: if the reconnect dial
also fails (with whatever dial error), the loop returns the original
read error `e`, not the dial's error; if the dial succeeds, the
function does not return and resumes the loop reading from the new
connection. -/
theorem streamRun_read_error {E M C : Type} (conn : C)
    (inp : LoopInput E M C) (rest : List (LoopInput E M C)) (e : E)
    (hdone : inp.doneAfterRead = false) (hread : inp.readRes = .error e) :
    (∀ d, inp.dialRes = .error d →
       streamRun conn (inp :: rest) = ([], some (some e), conn)) ∧
    (∀ c2, inp.dialRes = .ok c2 →
       streamRun conn (inp :: rest) = streamRun c2 rest) := by
  constructor
  · intro d hdial
    simp [streamRun, hdone, hread, hdial]
  · intro c2 hdial
    simp [streamRun, hdone, hread, hdial]

/-- The fold step of the consumer's per-batch maximum. -/
lemma batchFold_id (l : List MsgStream) (a : Int)
    (h : ∀ s ∈ l, latestTimestamp s ≤ a) :
    l.foldl (fun ts s => if ts < latestTimestamp s then latestTimestamp s else ts) a
      = a := by
  induction l generalizing a with
  | nil => rfl
  | cons x xs ih =>
      simp only [List.foldl_cons]
      rw [if_neg (by have := h x (List.mem_cons_self x xs); omega)]
      exact ih a fun y hy => h y (List.mem_cons_of_mem x hy)

lemma batchFold_mem (l : List MsgStream) (a : Int) :
    l.foldl (fun ts s => if ts < latestTimestamp s then latestTimestamp s else ts) a
        = a ∨
    l.foldl (fun ts s => if ts < latestTimestamp s then latestTimestamp s else ts) a
        ∈ l.map latestTimestamp := by
  induction l generalizing a with
  | nil => exact Or.inl rfl
  | cons x xs ih =>
      simp only [List.foldl_cons, List.map_cons, List.mem_cons]
      by_cases hx : a < latestTimestamp x
      · rw [if_pos hx]
        rcases ih (latestTimestamp x) with h | h
        · exact Or.inr (Or.inl h)
        · exact Or.inr (Or.inr h)
      · rw [if_neg hx]
        rcases ih a with h | h
        · exact Or.inl h
        · exact Or.inr (Or.inr h)

lemma batchFold_ub (l : List MsgStream) (a : Int) :
    a ≤ l.foldl (fun ts s => if ts < latestTimestamp s then latestTimestamp s else ts) a ∧
    ∀ s ∈ l,
      latestTimestamp s ≤
        l.foldl (fun ts s => if ts < latestTimestamp s then latestTimestamp s else ts) a := by
  induction l generalizing a with
  | nil => exact ⟨le_refl a, by simp⟩
  | cons x xs ih =>
      simp only [List.foldl_cons]
      have hstep : a ≤ if a < latestTimestamp x then latestTimestamp x else a := by
        by_cases hx : a < latestTimestamp x
        · rw [if_pos hx]; omega
        · rw [if_neg hx]
      have hxle : latestTimestamp x ≤ if a < latestTimestamp x then latestTimestamp x else a := by
        by_cases hx : a < latestTimestamp x
        · rw [if_pos hx]
        · rw [if_neg hx]; omega
      obtain ⟨h1, h2⟩ := ih (if a < latestTimestamp x then latestTimestamp x else a)
      refine ⟨le_trans hstep h1, ?_⟩
      intro s hs
      rcases List.mem_cons.mp hs with rfl | hmem
      · exact le_trans hxle h1
      · exact h2 s hmem

lemma foldr_append_bind {α β : Type} (l : List α) (f : α → List β) :
    l.foldr (fun v acc => f v ++ acc) [] = l.flatMap f := by
  induction l with
  | nil => rfl
  | cons x xs ih => simp [List.flatMap_cons, ih]

lemma map_flatMap_eq {α β γ : Type} (l : List α) (f : α → List β) (g : β → γ) :
    (l.flatMap f).map g = l.flatMap (fun x => (f x).map g) := by
  induction l with
  | nil => rfl
  | cons x xs ih => simp [List.flatMap_cons, ih]

lemma foldr_valueRecords_some (fields : List (String × String))
    (lvlStr : String) (lvl : LogLevel) (hp : parseLevel lvlStr = some lvl)
    (l : List (String × String)) :
    l.foldr (fun v acc => valueRecords fields lvlStr v ++ acc) [] =
      l.map (fun v => ⟨lvl, fields, goAtoi v.1, v.2⟩) := by
  induction l with
  | nil => rfl
  | cons x xs ih =>
      rw [List.foldr_cons, ih]
      simp [valueRecords, hp]

lemma foldr_valueRecords_none (fields : List (String × String))
    (lvlStr : String) (hp : parseLevel lvlStr = none)
    (l : List (String × String)) :
    l.foldr (fun v acc => valueRecords fields lvlStr v ++ acc) [] =
      l.flatMap (fun v =>
        [⟨.info, fields, goAtoi v.1, v.2⟩,
         ⟨.warn, fields, goAtoi v.1, "last message had unknown level " ++ lvlStr⟩]) := by
  induction l with
  | nil => rfl
  | cons x xs ih =>
      rw [List.foldr_cons, ih, List.flatMap_cons]
      simp [valueRecords, hp]

lemma streamRecords_of_level (s : MsgStream) (lvlStr : String)
    (hl : List.lookup "level" s.stream = some lvlStr) :
    streamRecords s =
      s.values.foldr
        (fun v acc =>
          valueRecords (s.stream.filter (fun kv => kv.1 ≠ "level")) lvlStr v ++ acc)
        [] := by
  unfold streamRecords
  rw [hl]
  rfl

/-- **C5.** The consumer's watermark update for a decoded batch:
dropped entries never contribute; when the computed batch timestamp is
positive the watermark is set to it and it is the maximum of the
streams' latest timestamps (the parsed timestamp of each entry's first
value); a batch none of whose streams has a parseable positive latest
timestamp leaves the watermark unchanged. -/
theorem consumer_watermark (w : Int) (m : Msg) (d : List MsgDropped) :
    (consumeBatch w ⟨m.streams, d⟩ = consumeBatch w m) ∧
    (0 < batchTimestamp m →
       consumeBatch w m = batchTimestamp m ∧
       batchTimestamp m ∈ m.streams.map latestTimestamp ∧
       ∀ s ∈ m.streams, latestTimestamp s ≤ batchTimestamp m) ∧
    ((∀ s ∈ m.streams, latestTimestamp s ≤ 0) → consumeBatch w m = w) := by
  refine ⟨rfl, fun hpos => ⟨?_, ?_, ?_⟩, fun hall => ?_⟩
  · unfold consumeBatch tstSet
    rw [if_neg (by omega)]
  · rcases batchFold_mem m.streams 0 with h | h
    · exact absurd hpos (by rw [batchTimestamp, h]; omega)
    · exact h
  · exact (batchFold_ub m.streams 0).2
  · unfold consumeBatch
    rw [show batchTimestamp m = 0 from batchFold_id m.streams 0 hall]
    rfl

theorem consumer_watermark_witness :
    consumeBatch 5 ⟨[⟨[], [("200", "a")]⟩, ⟨[], [("900", "b"), ("100", "c")]⟩], [⟨[], "123"⟩]⟩
        = consumeBatch 5 ⟨[⟨[], [("200", "a")]⟩, ⟨[], [("900", "b"), ("100", "c")]⟩], []⟩ ∧
    consumeBatch 5 ⟨[⟨[], [("200", "a")]⟩, ⟨[], [("900", "b"), ("100", "c")]⟩], []⟩ = 900 ∧
    consumeBatch 5 ⟨[⟨[], [("abc", "a")]⟩, ⟨[], [("-7", "b")]⟩], []⟩ = 5 := by
  have hbt : batchTimestamp ⟨[⟨[], [("200", "a")]⟩, ⟨[], [("900", "b"), ("100", "c")]⟩], []⟩
      = 900 := by decide
  refine ⟨(consumer_watermark 5 ⟨[⟨[], [("200", "a")]⟩, ⟨[], [("900", "b"), ("100", "c")]⟩], []⟩
      [⟨[], "123"⟩]).1, ?_, ?_⟩
  · have := ((consumer_watermark 5
        ⟨[⟨[], [("200", "a")]⟩, ⟨[], [("900", "b"), ("100", "c")]⟩], []⟩ []).2.1
        (by rw [hbt]; norm_num)).1
    rw [this, hbt]
  · exact (consumer_watermark 5 ⟨[⟨[], [("abc", "a")]⟩, ⟨[], [("-7", "b")]⟩], []⟩ []).2.2
      (by decide)

/-- **C6.** A `StreamEntry` whose `level` label parses as a recognized
severity yields, for each `(timestamp, text)` value, exactly one sink
record at that severity with `level` removed from the emitted field
map; a `StreamEntry` whose `level` string does not parse yields, per
value, one record at info severity followed by one additional warning
record noting the unrecognized level string. -/
theorem level_label_rendering (s : MsgStream) (lvlStr : String)
    (hl : List.lookup "level" s.stream = some lvlStr) :
    (∀ lvl, parseLevel lvlStr = some lvl →
       streamRecords s = s.values.map (fun v =>
         ⟨lvl, s.stream.filter (fun kv => kv.1 ≠ "level"), goAtoi v.1, v.2⟩)) ∧
    (parseLevel lvlStr = none →
       streamRecords s = s.values.flatMap (fun v =>
         [⟨.info, s.stream.filter (fun kv => kv.1 ≠ "level"), goAtoi v.1, v.2⟩,
          ⟨.warn, s.stream.filter (fun kv => kv.1 ≠ "level"), goAtoi v.1,
            "last message had unknown level " ++ lvlStr⟩])) := by
  constructor
  · intro lvl hp
    rw [streamRecords_of_level s lvlStr hl]
    exact foldr_valueRecords_some _ _ _ hp _
  · intro hp
    rw [streamRecords_of_level s lvlStr hl]
    exact foldr_valueRecords_none _ _ hp _

theorem level_label_rendering_witness :
    streamRecords ⟨[("level", "warn"), ("job", "x")], [("200", "hello")]⟩ =
      [⟨LogLevel.warn, [("job", "x")], 200, "hello"⟩] ∧
    streamRecords ⟨[("level", "wibble"), ("job", "x")], [("200", "hello")]⟩ =
      [⟨LogLevel.info, [("job", "x")], 200, "hello"⟩,
       ⟨LogLevel.warn, [("job", "x")], 200, "last message had unknown level wibble"⟩] := by
  constructor
  · rw [(level_label_rendering ⟨[("level", "warn"), ("job", "x")], [("200", "hello")]⟩
      "warn" (by decide)).1 LogLevel.warn (by decide)]
    decide
  · rw [(level_label_rendering ⟨[("level", "wibble"), ("job", "x")], [("200", "hello")]⟩
      "wibble" (by decide)).2 (by decide)]
    decide

/-- **C7.** Rendering is a per-entry homomorphism: the Go `level`
variable threaded across iterations of the stream loop is dead state,
so the records of each `StreamEntry` depend only on that entry, and
the whole render is the concatenation of a per-entry function over
streams followed by the per-dropped-entry warnings. -/
theorem render_per_entry (lvl0 lvl1 : String) (streams : List MsgStream) (m : Msg) :
    logStreamsGo lvl0 streams = streams.flatMap streamRecords ∧
    logStreamsGo lvl0 streams = logStreamsGo lvl1 streams ∧
    msgLog m = m.streams.flatMap streamRecords ++ m.droppedEntries.map droppedRecord := by
  have key : ∀ (l : List MsgStream) (lv : String),
      logStreamsGo lv l = l.flatMap streamRecords := by
    intro l
    induction l with
    | nil => intro lv; rfl
    | cons x xs ih =>
        intro lv
        rw [List.flatMap_cons, ← ih ((List.lookup "level" x.stream).getD "")]
        rfl
  exact ⟨key streams lvl0, by rw [key streams lvl0, key streams lvl1],
         by rw [msgLog, key m.streams ""]⟩

/-- **C8.** The sink records emitted for a `StreamEntry` preserve the
exact order of its values sequence as received: with a recognized
`level`, the message and time sequences equal the value text and
parsed-timestamp sequences; with an unrecognized (or absent) `level`,
each value contributes its info record and the follow-up warning in
place, still in values order — never re-sorted, dropped, or
reordered. -/
theorem render_value_order (s : MsgStream) :
    (∀ lvl, parseLevel ((List.lookup "level" s.stream).getD "") = some lvl →
       (streamRecords s).map (fun r => r.message) = s.values.map (fun v => v.2) ∧
       (streamRecords s).map (fun r => r.timeNs) = s.values.map (fun v => goAtoi v.1)) ∧
    (parseLevel ((List.lookup "level" s.stream).getD "") = none →
       (streamRecords s).map (fun r => r.message) =
         s.values.flatMap (fun v =>
           [v.2, "last message had unknown level " ++
             (List.lookup "level" s.stream).getD ""]) ∧
       (streamRecords s).map (fun r => r.timeNs) =
         s.values.flatMap (fun v => [goAtoi v.1, goAtoi v.1])) := by
  have hrec : streamRecords s =
      s.values.foldr
        (fun v acc =>
          valueRecords
            (if (List.lookup "level" s.stream).isSome
             then s.stream.filter (fun kv => kv.1 ≠ "level") else s.stream)
            ((List.lookup "level" s.stream).getD "") v ++ acc)
        [] := rfl
  constructor
  · intro lvl hp
    rw [hrec, foldr_valueRecords_some _ _ _ hp]
    constructor <;> simp [List.map_map]
  · intro hp
    rw [hrec, foldr_valueRecords_none _ _ hp]
    constructor
    all_goals
      rw [map_flatMap_eq]
      simp

theorem render_value_order_witness :
    (streamRecords ⟨[("level", "warn")], [("900", "b"), ("100", "c")]⟩).map
        (fun r => r.message) = ["b", "c"] ∧
    (streamRecords ⟨[("level", "warn")], [("900", "b"), ("100", "c")]⟩).map
        (fun r => r.timeNs) = [900, 100] ∧
    (streamRecords ⟨[], [("900", "b"), ("100", "c")]⟩).map
        (fun r => r.timeNs) = [900, 900, 100, 100] :=
  ⟨((render_value_order ⟨[("level", "warn")], [("900", "b"), ("100", "c")]⟩).1
      LogLevel.warn (by decide)).1.trans (by decide),
   ((render_value_order ⟨[("level", "warn")], [("900", "b"), ("100", "c")]⟩).1
      LogLevel.warn (by decide)).2.trans (by decide),
   (((render_value_order ⟨[], [("900", "b"), ("100", "c")]⟩).2 (by decide)).2).trans
     (by decide)⟩

lemma firstSuccFrom_ge {Err : Type} (doAct : Nat → Option Err) :
    ∀ r i k, firstSuccFrom doAct i r = some k → i ≤ k ∧ k < i + r := by
  intro r
  induction r with
  | zero => intro i k h; simp [firstSuccFrom] at h
  | succ n ih =>
      intro i k h
      by_cases hd : (doAct i).isNone
      · simp [firstSuccFrom, hd] at h
        omega
      · simp [firstSuccFrom, hd] at h
        have := ih (i + 1) k h
        omega

lemma retryLoop_calls {Err : Type} (doAct : Nat → Option Err) (jit : Nat → Int)
    (bs : Nat) (mx : Int) :
    ∀ r i last,
      (retryLoop doAct jit bs mx i r last).calls =
        (match firstSuccFrom doAct i r with
         | some k => k + 1 - i
         | none => r) := by
  intro r
  induction r with
  | zero => intro i last; rfl
  | succ n ih =>
      intro i last
      cases hd : doAct i with
      | none =>
          simp [retryLoop, firstSuccFrom, hd]
      | some e =>
          simp only [retryLoop, firstSuccFrom, hd, Option.isNone_some,
            Bool.false_eq_true, if_false, ih (i + 1) (some e)]
          cases hfs : firstSuccFrom doAct (i + 1) n with
          | none =>
              show 1 + n = n + 1
              omega
          | some k =>
              have h2 := firstSuccFrom_ge doAct n (i + 1) k hfs
              show 1 + (k + 1 - (i + 1)) = k + 1 - i
              omega

lemma retryLoop_result {Err : Type} (doAct : Nat → Option Err) (jit : Nat → Int)
    (bs : Nat) (mx : Int) :
    ∀ r i last,
      (retryLoop doAct jit bs mx i r last).result =
        (match firstSuccFrom doAct i r with
         | some _ => none
         | none => if r = 0 then last else doAct (i + r - 1)) := by
  intro r
  induction r with
  | zero => intro i last; rfl
  | succ n ih =>
      intro i last
      cases hd : doAct i with
      | none => simp [retryLoop, firstSuccFrom, hd]
      | some e =>
          simp only [retryLoop, firstSuccFrom, hd, Option.isNone_some,
            Bool.false_eq_true, if_false, ih (i + 1) (some e)]
          cases hfs : firstSuccFrom doAct (i + 1) n with
          | some k => simp
          | none =>
              simp only [Nat.succ_ne_zero, if_false]
              cases n with
              | zero => simp [hd]
              | succ m =>
                  simp only [Nat.succ_ne_zero, if_false]
                  congr 1
                  omega

lemma retryLoop_sleeps_len {Err : Type} (doAct : Nat → Option Err) (jit : Nat → Int)
    (bs : Nat) (mx : Int) :
    ∀ r i last,
      (retryLoop doAct jit bs mx i r last).sleeps.length =
        (retryLoop doAct jit bs mx i r last).calls - (if i = 0 then 1 else 0) := by
  intro r
  induction r with
  | zero => intro i last; simp [retryLoop]
  | succ n ih =>
      intro i last
      cases hd : doAct i with
      | none =>
          by_cases hi : i = 0
          · subst hi; simp [retryLoop, hd]
          · simp [retryLoop, hd, hi]
      | some e =>
          have hrec := ih (i + 1) (some e)
          rw [if_neg (Nat.succ_ne_zero i)] at hrec
          by_cases hi : i = 0
          · subst hi
            simp [retryLoop, hd, hrec]
          · simp [retryLoop, hd, hi, hrec]
            omega

/-- The sequence of waits `retry` computes for consecutive loop
iterations starting at `i`. -/
def waitList (bs : Nat) (mx : Int) (jit : Nat → Int) : Nat → Nat → List Int
  | _, 0 => []
  | i, c + 1 => waitInterval bs i (jit i) mx :: waitList bs mx jit (i + 1) c

lemma retryLoop_sleeps_eq {Err : Type} (doAct : Nat → Option Err) (jit : Nat → Int)
    (bs : Nat) (mx : Int) :
    ∀ r i last, 1 ≤ i →
      (retryLoop doAct jit bs mx i r last).sleeps =
        waitList bs mx jit i (retryLoop doAct jit bs mx i r last).calls := by
  intro r
  induction r with
  | zero => intro i last hi; simp [retryLoop, waitList]
  | succ n ih =>
      intro i last hi
      cases hd : doAct i with
      | none =>
          simp only [retryLoop, hd]
          rw [if_neg (by omega : ¬ i = 0)]
          simp [waitList]
      | some e =>
          simp only [retryLoop, hd]
          rw [if_neg (by omega : ¬ i = 0)]
          show waitInterval bs i (jit i) mx ::
              (retryLoop doAct jit bs mx (i + 1) n (some e)).sleeps =
            waitList bs mx jit i (1 + (retryLoop doAct jit bs mx (i + 1) n (some e)).calls)
          rw [Nat.add_comm 1 _]
          rw [ih (i + 1) (some e) (by omega)]
          rfl

lemma retry_sleeps_eq {Err : Type} (doAct : Nat → Option Err) (jit : Nat → Int)
    (interval mx : Int) (n : Nat) :
    (retry n interval mx doAct jit).sleeps =
      waitList (interval.natAbs / 1000000000) mx jit 1
        ((retry n interval mx doAct jit).calls - 1) := by
  unfold retry
  cases n with
  | zero => rfl
  | succ m =>
      cases hd : doAct 0 with
      | none => simp [retryLoop, hd, waitList]
      | some e =>
          simp only [retryLoop, hd]
          show (retryLoop doAct jit (interval.natAbs / 1000000000) mx 1 m (some e)).sleeps =
            waitList (interval.natAbs / 1000000000) mx jit 1
              (1 + (retryLoop doAct jit (interval.natAbs / 1000000000) mx 1 m (some e)).calls - 1)
          rw [retryLoop_sleeps_eq doAct jit (interval.natAbs / 1000000000) mx m 1 (some e)
            (le_refl 1)]
          congr 1
          omega

lemma waitList_get (bs : Nat) (mx : Int) (jit : Nat → Int) :
    ∀ c i (j : Nat) (h : j < (waitList bs mx jit i c).length),
      (waitList bs mx jit i c).get ⟨j, h⟩ = waitInterval bs (i + j) (jit (i + j)) mx := by
  intro c
  induction c with
  | zero => intro i j h; simp [waitList] at h
  | succ m ih =>
      intro i j h
      cases j with
      | zero => simp [waitList]
      | succ j0 =>
          have h0 : j0 < (waitList bs mx jit (i + 1) m).length := by
            simpa [waitList] using h
          show (waitList bs mx jit (i + 1) m).get ⟨j0, h0⟩ = _
          rw [ih (i + 1) j0 h0]
          have harg : i + 1 + j0 = i + (j0 + 1) := by omega
          rw [harg]

/-- **C9 counterexample.** The timestamp string
`"99999999999999999999999"` fails Go's integer parse (`Atoi` reports an
error), yet the two records rendered for its value carry time
`2^63 - 1` (the saturated bound `Atoi` returns with the range error),
not the epoch. -/
theorem malformed_timestamp_cex :
    (goAtoiOk "99999999999999999999999").2 = false ∧
    (streamRecords ⟨[], [("99999999999999999999999", "x")]⟩).map (fun r => r.timeNs) =
      [int64Max, int64Max] ∧
    int64Max ≠ (0 : Int) :=
  ⟨by decide, by decide, by decide⟩

/-- **C9 (amended).** No value or dropped entry is ever skipped for a
malformed timestamp: the records are always emitted, with the
Atoi-parsed time; a timestamp that is not syntactically an integer
yields the epoch (time zero), while a syntactically valid integer out
of the `int64` range yields the saturated `int64` bound. -/
theorem malformed_timestamp_amended (fields : List (String × String))
    (lvlStr : String) (v : String × String) (d : MsgDropped) :
    ((valueRecords fields lvlStr v).map (fun r => r.timeNs) =
       match parseLevel lvlStr with
       | some _ => [goAtoi v.1]
       | none => [goAtoi v.1, goAtoi v.1]) ∧
    (valueRecords fields lvlStr v ≠ []) ∧
    (goParseIntCore v.1 = none → goAtoi v.1 = 0) ∧
    (goParseIntCore d.timestamp = none → (droppedRecord d).timeNs = 0) ∧
    (∀ x, goParseIntCore v.1 = some x → int64Max < x → goAtoi v.1 = int64Max) ∧
    (∀ x, goParseIntCore v.1 = some x → x < int64Min → goAtoi v.1 = int64Min) := by
  refine ⟨?_, ?_, fun h => ?_, fun h => ?_, fun x hx h => ?_, fun x hx h => ?_⟩
  · unfold valueRecords
    cases parseLevel lvlStr <;> simp
  · unfold valueRecords
    cases parseLevel lvlStr <;> simp
  · unfold goAtoi
    rw [h]
  · unfold droppedRecord goAtoi
    rw [h]
  · simp [goAtoi, hx, h]
  · have h1 : ¬ int64Max < x := by
      simp only [int64Max, int64Min] at h ⊢
      omega
    simp [goAtoi, hx, h1, h]

theorem malformed_timestamp_amended_witness :
    (valueRecords [] "" ("abc", "x")).map (fun r => r.timeNs) = [0, 0] ∧
    valueRecords [] "" ("abc", "x") ≠ [] ∧
    (droppedRecord ⟨[], "abc"⟩).timeNs = 0 ∧
    goAtoi "99999999999999999999999" = int64Max ∧
    goAtoi "-99999999999999999999999" = int64Min := by
  have h := malformed_timestamp_amended [] "" ("abc", "x") ⟨[], "abc"⟩
  have h2 := malformed_timestamp_amended [] "" ("99999999999999999999999", "x") ⟨[], "abc"⟩
  have h3 := malformed_timestamp_amended [] "" ("-99999999999999999999999", "x") ⟨[], "abc"⟩
  refine ⟨?_, h.2.1, h.2.2.2.1 (by decide), ?_, ?_⟩
  · rw [h.1]
    have : goAtoi "abc" = 0 := h.2.2.1 (by decide)
    rw [this]
    decide
  · exact h2.2.2.2.2.1 99999999999999999999999 (by decide) (by decide)
  · exact h3.2.2.2.2.2 (-99999999999999999999999) (by decide) (by decide)

lemma waitInterval_eq_min (bs i : Nat) (j mx : Int) :
    waitInterval bs i j mx = min (((bs ^ i : Nat) : Int) * 1000000000 + j * 1000000) mx := by
  unfold waitInterval
  rw [min_def]
  by_cases h : ((bs ^ i : Nat) : Int) * 1000000000 + j * 1000000 ≤ mx
  · rw [if_pos h, if_neg (by omega)]
  · rw [if_neg h, if_pos (by omega)]

/-- **C1.** `retry` invokes the action once per loop iteration until
the first success: with `k` the 0-based index of the first successful
invocation it makes exactly `k + 1` calls (all `n` when every call
fails), sleeps exactly once before every invocation except the first,
returns `nil` as soon as an invocation succeeds, and returns the error
of the `n`-th (last) invocation when all `n` fail. -/
theorem retry_attempt_semantics {Err : Type} (doAct : Nat → Option Err)
    (jit : Nat → Int) (interval mx : Int) (n : Nat) :
    ((retry n interval mx doAct jit).calls =
       match firstSuccess doAct n with
       | some k => k + 1
       | none => n) ∧
    ((retry n interval mx doAct jit).sleeps.length =
       (retry n interval mx doAct jit).calls - 1) ∧
    (∀ k, firstSuccess doAct n = some k →
       (retry n interval mx doAct jit).result = none) ∧
    (0 < n → firstSuccess doAct n = none →
       (retry n interval mx doAct jit).result = doAct (n - 1)) := by
  refine ⟨?_, ?_, fun k hk => ?_, fun hn hf => ?_⟩
  · rw [retry, retryLoop_calls doAct jit (interval.natAbs / 1000000000) mx n 0 none]
    unfold firstSuccess
    cases firstSuccFrom doAct 0 n <;> rfl
  · rw [retry, retryLoop_sleeps_len doAct jit (interval.natAbs / 1000000000) mx n 0 none,
      if_pos rfl]
  · rw [retry, retryLoop_result doAct jit (interval.natAbs / 1000000000) mx n 0 none]
    rw [show firstSuccFrom doAct 0 n = some k from hk]
  · rw [retry, retryLoop_result doAct jit (interval.natAbs / 1000000000) mx n 0 none]
    rw [show firstSuccFrom doAct 0 n = none from hf, if_neg (by omega)]
    show doAct (0 + n - 1) = doAct (n - 1)
    congr 1
    omega

theorem retry_attempt_semantics_witness :
    (retry 3 5 9 (fun i => if i = 1 then none else some "e") (fun _ => 0)).result = none ∧
    (retry 3 5 9 (fun _ => (some "e" : Option String)) (fun _ => 0)).result = some "e" :=
  ⟨(retry_attempt_semantics (fun i => if i = 1 then none else some "e")
      (fun _ => 0) 5 9 3).2.2.1 1 (by decide),
   (retry_attempt_semantics (fun _ => (some "e" : Option String))
      (fun _ => 0) 5 9 3).2.2.2 (by norm_num) (by decide)⟩

/-- **C4.** The duration handed to the `i`-th sleep (1-based `i = j+1`
for 0-based position `j`) is
`min(baseSeconds^i seconds + jitter(i) milliseconds, maxInterval)`,
where `baseSeconds` is the absolute value of the base interval
truncated to whole seconds; for a base interval strictly under one
second the exponential term is zero, leaving the jitter alone (still
capped at `maxInterval`). -/
theorem retry_backoff_wait {Err : Type} (doAct : Nat → Option Err)
    (jit : Nat → Int) (interval mx : Int) (n : Nat) :
    (∀ (j : Nat) (h : j < (retry n interval mx doAct jit).sleeps.length),
       (retry n interval mx doAct jit).sleeps.get ⟨j, h⟩ =
         min ((((interval.natAbs / 1000000000 : Nat) ^ (j + 1) : Nat) : Int) * 1000000000
                + jit (j + 1) * 1000000) mx) ∧
    (interval.natAbs < 1000000000 →
       ∀ (j : Nat) (h : j < (retry n interval mx doAct jit).sleeps.length),
         (retry n interval mx doAct jit).sleeps.get ⟨j, h⟩ =
           min (jit (j + 1) * 1000000) mx) := by
  have hget : ∀ (j : Nat) (h : j < (retry n interval mx doAct jit).sleeps.length),
      (retry n interval mx doAct jit).sleeps.get ⟨j, h⟩ =
        waitInterval (interval.natAbs / 1000000000) (j + 1) (jit (j + 1)) mx := by
    intro j h
    have hs := retry_sleeps_eq doAct jit interval mx n
    rw [List.get_of_eq hs ⟨j, h⟩]
    rw [waitList_get (interval.natAbs / 1000000000) mx jit
      ((retry n interval mx doAct jit).calls - 1) 1 j _]
    have harg : 1 + j = j + 1 := by omega
    rw [harg]
  refine ⟨fun j h => ?_, fun hsmall j h => ?_⟩
  · rw [hget j h, waitInterval_eq_min]
  · rw [hget j h, waitInterval_eq_min]
    rw [show interval.natAbs / 1000000000 = 0 from Nat.div_eq_of_lt hsmall]
    rw [zero_pow (Nat.succ_ne_zero j)]
    norm_num

theorem retry_backoff_wait_witness :
    (retry 3 5000000000 1000000000000
        (fun _ => (some "e" : Option String)) (fun _ => 7)).sleeps.get
      ⟨1, by decide⟩ = 25007000000 ∧
    (retry 2 5 1000000000000
        (fun _ => (some "e" : Option String)) (fun _ => 7)).sleeps.get
      ⟨0, by decide⟩ = 7000000 :=
  ⟨((retry_backoff_wait (fun _ => (some "e" : Option String)) (fun _ => 7)
      5000000000 1000000000000 3).1 1 (by decide)).trans (by decide),
   ((retry_backoff_wait (fun _ => (some "e" : Option String)) (fun _ => 7)
      5 1000000000000 2).2 (by decide) 0 (by decide)).trans (by decide)⟩

theorem streamRun_read_error_witness :
    streamRun (0 : Nat)
        [(⟨Except.error 9, false, Except.error 4, false⟩ : LoopInput Nat Nat Nat)] =
      ([], some (some 9), 0) ∧
    streamRun (0 : Nat)
        [(⟨Except.error 9, false, Except.ok 1, false⟩ : LoopInput Nat Nat Nat)] =
      streamRun 1 [] :=
  ⟨(streamRun_read_error 0 _ [] 9 rfl rfl).1 4 rfl,
   (streamRun_read_error 0 _ [] 9 rfl rfl).2 1 rfl⟩

end K6Logs
